import Mathlib

/-!
# The `converter` service: request handler and listener lifecycle

A shallow embedding of `converter.go`.  Go `error` values are represented by
their `Error()` text (`none` is `nil`), a call returning `(value, error)` whose
value is discarded on failure is an `Except String`, and Go byte strings are
Lean `String`s (so bodies are taken to be valid UTF-8 text).  Everything the
program obtains from outside (the outcome of reading a body, of the transport
write, of binding a socket, the signals the process is sent) is an explicit
input of the model.
-/

namespace Converter

/-! ## Data model (`converter.go`, lines 65-84) -/

/-- The Go struct `InputStruct`, JSON keys `a`, `b`, `c`. -/
structure InputStruct where
  A : String
  B : Int
  C : Bool
deriving DecidableEq, Repr

/-- The Go struct `OutputStruct`, JSON keys `d`, `e`, `f`. -/
structure OutputStruct where
  D : String
  E : Bool
  F : Int
deriving DecidableEq, Repr

/-- The Go function `convert`: returns the output record together with the
error value, which is always `nil`. -/
def convert (input : InputStruct) : OutputStruct × Option String :=
  let output : OutputStruct := { D := input.A, E := input.C, F := input.B }
  (output, none)

/-! ## The HTTP vocabulary the handler uses -/

def MethodPost : String := "POST"
def StatusOK : Nat := 200
def StatusBadRequest : Nat := 400
def StatusMethodNotAllowed : Nat := 405
def StatusInternalServerError : Nat := 500

/-- What a handler is given: the method, and what `ioutil.ReadAll(r.Body)`
yields when (and if) the handler calls it. -/
structure Request where
  Method : String
  Body : Except String String

/-- An `http.ResponseWriter` seen as the response it has produced so far:
the header map, the status line once written, and the bytes written. -/
structure ResponseWriter where
  Header : List (String × String)
  status : Option Nat
  body : String
deriving DecidableEq, Repr

/-- The writer the server hands to a handler: nothing set, nothing written. -/
def newResponseWriter : ResponseWriter := { Header := [], status := none, body := "" }

/-- The Go call `w.Header().Set(key, value)`: replaces the entry; it no longer
affects the response once the status line is out. -/
def ResponseWriter.Set (w : ResponseWriter) (key value : String) : ResponseWriter :=
  match w.status with
  | some _ => w
  | none => { w with Header := (w.Header.filter fun kv => kv.1 != key) ++ [(key, value)] }

/-- The Go call `w.WriteHeader(code)`: only the first call takes effect. -/
def ResponseWriter.WriteHeader (w : ResponseWriter) (code : Nat) : ResponseWriter :=
  match w.status with
  | some _ => w
  | none => { w with status := some code }

/-- The Go call `w.Write(data)`: sends status 200 first when none was written. -/
def ResponseWriter.Write (w : ResponseWriter) (data : String) : ResponseWriter :=
  let w1 := w.WriteHeader StatusOK
  { w1 with body := w1.body ++ data }

/-- The library function `http.Error(w, error, code)`: a plain-text reply whose
body is the message printed with `fmt.Fprintln`, that is followed by a line
feed. -/
def Error (w : ResponseWriter) (error : String) (code : Nat) : ResponseWriter :=
  let w1 := w.Set "Content-Type" "text/plain; charset=utf-8"
  let w2 := w1.Set "X-Content-Type-Options" "nosniff"
  let w3 := w2.WriteHeader code
  w3.Write (error ++ "\n")

/-- The operations a handler call performs, in program order. -/
inductive Call where
  | ReadAll
  | Unmarshal (data : String)
  | convert (input : InputStruct)
  | Marshal (output : OutputStruct)
  | Error (error : String) (code : Nat)
  | HeaderSet (key value : String)
  | WriteHeader (code : Nat)
  | Write (data : String)
  | logPrint (msg : String)
deriving DecidableEq, Repr

/-- The library and transport behaviour a handler call runs against:
`json.Unmarshal` into an `InputStruct`, `json.Marshal` of an `OutputStruct`,
and the error (if any) that `w.Write` reports for the data it is given. -/
structure Env where
  Unmarshal : String → Except String InputStruct
  Marshal : OutputStruct → Except String String
  WriteErr : String → Option String

/-- The result of one handler call: the response produced and the operations
performed. -/
structure Exchange where
  w : ResponseWriter
  calls : List Call
deriving DecidableEq, Repr

/-- The Go function `handler` (`converter.go`, lines 86-137). -/
def handler (env : Env) (w : ResponseWriter) (r : Request) : Exchange :=
  if r.Method = MethodPost then
    match r.Body with
    | .error err =>
      { w := Error w err StatusBadRequest,
        calls := [.ReadAll, .Error err StatusBadRequest] }
    | .ok data =>
      match env.Unmarshal data with
      | .error err =>
        { w := Error w err StatusBadRequest,
          calls := [.ReadAll, .Unmarshal data, .Error err StatusBadRequest] }
      | .ok input =>
        match convert input with
        | (_, some err) =>
          { w := Error w err StatusInternalServerError,
            calls := [.ReadAll, .Unmarshal data, .convert input,
                      .Error err StatusInternalServerError] }
        | (output, none) =>
          match env.Marshal output with
          | .error err =>
            { w := Error w err StatusInternalServerError,
              calls := [.ReadAll, .Unmarshal data, .convert input, .Marshal output,
                        .Error err StatusInternalServerError] }
          | .ok data1 =>
            let w1 := w.Set "Content-Type" "application/json; charset=utf-8"
            let w2 := w1.WriteHeader StatusOK
            let w3 := w2.Write data1
            let done : List Call :=
              [.ReadAll, .Unmarshal data, .convert input, .Marshal output,
               .HeaderSet "Content-Type" "application/json; charset=utf-8",
               .WriteHeader StatusOK, .Write data1]
            match env.WriteErr data1 with
            | some err => { w := w3, calls := done ++ [.logPrint err] }
            | none => { w := w3, calls := done }
  else
    { w := Error w "Method Not Allowed" StatusMethodNotAllowed,
      calls := [.Error "Method Not Allowed" StatusMethodNotAllowed] }

/-! ## A model of `encoding/json` for the two record types

`json.Unmarshal` first checks the whole text against the JSON grammar and only
then decodes it, so the model is a scanner producing a `Value` followed by a
decoder from `Value` to `InputStruct`. -/

/-- A JSON value; a number keeps its literal text. -/
inductive Value where
  | null
  | bool (b : Bool)
  | number (lit : String)
  | string (s : String)
  | array (elems : List Value)
  | object (members : List (String × Value))
deriving Repr

/-- The deepest nesting of arrays and objects the library accepts. -/
def maxNestingDepth : Nat := 10000

def eofError : String := "unexpected end of JSON input"

/-- The character as the library quotes it in a message (the escapes it uses
for control and non-ASCII characters are not reproduced). -/
def quoteChar (c : Char) : String :=
  if c = Char.ofNat 39 then "'\\''" else "'" ++ String.singleton c ++ "'"

def invalidChar (c : Char) (context : String) : String :=
  "invalid character " ++ quoteChar c ++ " " ++ context

def isSpace (c : Char) : Bool :=
  c = ' ' || c = '\t' || c = '\r' || c = '\n'

def isDigit (c : Char) : Bool :=
  48 ≤ c.toNat && c.toNat ≤ 57

def skipSpace : List Char → List Char
  | [] => []
  | c :: cs => if isSpace c then skipSpace cs else c :: cs

def spanDigits : List Char → List Char × List Char
  | [] => ([], [])
  | c :: cs =>
    if isDigit c then
      let (ds, rest) := spanDigits cs
      (c :: ds, rest)
    else ([], c :: cs)

def hexVal (c : Char) : Option Nat :=
  let n := c.toNat
  if 48 ≤ n ∧ n ≤ 57 then some (n - 48)
  else if 97 ≤ n ∧ n ≤ 102 then some (n - 87)
  else if 65 ≤ n ∧ n ≤ 70 then some (n - 55)
  else none

/-- Four hexadecimal digits as a number, or the first character that is not
one. -/
def hex4 (h1 h2 h3 h4 : Char) : Except Char Nat :=
  match hexVal h1, hexVal h2, hexVal h3, hexVal h4 with
  | some a, some b, some c, some d => .ok (((a * 16 + b) * 16 + c) * 16 + d)
  | none, _, _, _ => .error h1
  | _, none, _, _ => .error h2
  | _, _, none, _ => .error h3
  | _, _, _, none => .error h4

/-- The character a one-letter escape stands for. -/
def unescape (e : Char) : Option Char :=
  if e = '"' then some '"'
  else if e = '\\' then some '\\'
  else if e = '/' then some '/'
  else if e = 'b' then some (Char.ofNat 8)
  else if e = 'f' then some (Char.ofNat 12)
  else if e = 'n' then some '\n'
  else if e = 'r' then some '\r'
  else if e = 't' then some '\t'
  else none

def isSurrogate (r : Nat) : Bool := 0xD800 ≤ r && r < 0xE000

/-- The rune of a UTF-16 surrogate pair, when `r1`, `r2` are one. -/
def decodeSurrogates (r1 r2 : Nat) : Option Char :=
  if 0xD800 ≤ r1 ∧ r1 < 0xDC00 ∧ 0xDC00 ≤ r2 ∧ r2 < 0xE000 then
    some (Char.ofNat ((r1 - 0xD800) * 1024 + (r2 - 0xDC00) + 0x10000))
  else none

def replacementChar : Char := Char.ofNat 0xFFFD

/-- The low half of a surrogate pair written as a second `\u` escape. -/
def lowHalf (r1 : Nat) : List Char → Option Char
  | '\\' :: 'u' :: g1 :: g2 :: g3 :: g4 :: _ =>
    match hex4 g1 g2 g3 g4 with
    | .ok r2 => decodeSurrogates r1 r2
    | .error _ => none
  | _ => none

/-- The error for a `\u` escape cut short by the end of the input. -/
def shortEscape : List Char → String
  | [] => eofError
  | h :: hs =>
    match hexVal h with
    | none => invalidChar h "in \\u hexadecimal character escape"
    | some _ => shortEscape hs

/-- Scans a string literal after its opening quote: the decoded characters
and the text after the closing quote.  The fuel is an upper bound on the
number of characters left. -/
def scanString : Nat → List Char → Except String (List Char × List Char)
  | 0, _ => .error eofError
  | _ + 1, [] => .error eofError
  | fuel + 1, c :: cs =>
    if c = '"' then .ok ([], cs)
    else if c = '\\' then
      match cs with
      | [] => .error eofError
      | 'u' :: h1 :: h2 :: h3 :: h4 :: cs1 =>
        match hex4 h1 h2 h3 h4 with
        | .error bad => .error (invalidChar bad "in \\u hexadecimal character escape")
        | .ok r =>
          if isSurrogate r then
            match lowHalf r cs1 with
            | some ch => (scanString fuel (cs1.drop 6)).map fun p => (ch :: p.1, p.2)
            | none => (scanString fuel cs1).map fun p => (replacementChar :: p.1, p.2)
          else (scanString fuel cs1).map fun p => (Char.ofNat r :: p.1, p.2)
      | 'u' :: short => .error (shortEscape short)
      | e :: cs1 =>
        match unescape e with
        | some ch => (scanString fuel cs1).map fun p => (ch :: p.1, p.2)
        | none => .error (invalidChar e "in string escape code")
    else if c.toNat < 32 then .error (invalidChar c "in string literal")
    else (scanString fuel cs).map fun p => (c :: p.1, p.2)

/-- The digits of an exponent, after `e` or `E`. -/
def scanExponent : List Char → Except String (List Char × List Char)
  | [] => .error eofError
  | c :: cs =>
    if c = '+' ∨ c = '-' then
      match cs with
      | [] => .error eofError
      | d :: cs1 =>
        if isDigit d then
          let (ds, rest) := spanDigits cs1
          .ok (c :: d :: ds, rest)
        else .error (invalidChar d "in exponent of numeric literal")
    else if isDigit c then
      let (ds, rest) := spanDigits cs
      .ok (c :: ds, rest)
    else .error (invalidChar c "in exponent of numeric literal")

/-- The fraction and exponent that may follow the integer part. -/
def scanFraction : List Char → Except String (List Char × List Char)
  | '.' :: cs =>
    match cs with
    | [] => .error eofError
    | d :: cs1 =>
      if isDigit d then
        let (ds, rest) := spanDigits cs1
        match rest with
        | e :: rest1 =>
          if e = 'e' ∨ e = 'E' then
            (scanExponent rest1).map fun p => ('.' :: d :: ds ++ e :: p.1, p.2)
          else .ok ('.' :: d :: ds, rest)
        | [] => .ok ('.' :: d :: ds, rest)
      else .error (invalidChar d "after decimal point in numeric literal")
  | e :: cs =>
    if e = 'e' ∨ e = 'E' then (scanExponent cs).map fun p => (e :: p.1, p.2)
    else .ok ([], e :: cs)
  | [] => .ok ([], [])

/-- The integer part of a number, after the optional minus sign. -/
def scanInteger : List Char → Except String (List Char × List Char)
  | [] => .error eofError
  | c :: cs =>
    if c = '0' then .ok (['0'], cs)
    else if isDigit c then
      let (ds, rest) := spanDigits cs
      .ok (c :: ds, rest)
    else .error (invalidChar c "in numeric literal")

/-- Scans a number literal without sign: integer part, then the optional
fraction and exponent. -/
def scanUnsigned (cs : List Char) : Except String (List Char × List Char) :=
  match scanInteger cs with
  | .error e => .error e
  | .ok (int, rest) => (scanFraction rest).map fun p => (int ++ p.1, p.2)

/-- Scans a number literal starting at its first character. -/
def scanNumber : List Char → Except String (List Char × List Char)
  | '-' :: rest => (scanUnsigned rest).map fun p => ('-' :: p.1, p.2)
  | cs => scanUnsigned cs

/-- Scans the remaining letters of `true`, `false` or `null`. -/
def scanLiteral (name : String) : List Char → List Char → Except String (List Char)
  | [], cs => .ok cs
  | _ :: _, [] => .error eofError
  | l :: ls, c :: cs =>
    if c = l then scanLiteral name ls cs
    else .error (invalidChar c ("in literal " ++ name ++ " (expecting " ++ quoteChar l ++ ")"))

mutual
/-- Scans one JSON value, skipping the white space before it; `depth` counts
the arrays and objects already open, and the fuel bounds the recursion. -/
def scanValue : Nat → Nat → List Char → Except String (Value × List Char)
  | 0, _, _ => .error eofError
  | fuel + 1, depth, cs =>
    match skipSpace cs with
    | [] => .error eofError
    | c :: rest =>
      if c = '\x7b' then
        if maxNestingDepth ≤ depth then .error (invalidChar c "exceeded max depth")
        else
          match skipSpace rest with
          | [] => .error eofError
          | c1 :: rest1 =>
            if c1 = '\x7d' then .ok (.object [], rest1)
            else (scanMembers fuel (depth + 1) (c1 :: rest1)).map fun p => (.object p.1, p.2)
      else if c = '[' then
        if maxNestingDepth ≤ depth then .error (invalidChar c "exceeded max depth")
        else
          match skipSpace rest with
          | [] => .error eofError
          | c1 :: rest1 =>
            if c1 = ']' then .ok (.array [], rest1)
            else (scanElems fuel (depth + 1) (c1 :: rest1)).map fun p => (.array p.1, p.2)
      else if c = '"' then
        (scanString rest.length rest).map fun p => (.string (String.mk p.1), p.2)
      else if c = '-' ∨ isDigit c then
        (scanNumber (c :: rest)).map fun p => (.number (String.mk p.1), p.2)
      else if c = 't' then
        (scanLiteral "true" ['r', 'u', 'e'] rest).map fun r => (.bool true, r)
      else if c = 'f' then
        (scanLiteral "false" ['a', 'l', 's', 'e'] rest).map fun r => (.bool false, r)
      else if c = 'n' then
        (scanLiteral "null" ['u', 'l', 'l'] rest).map fun r => (.null, r)
      else .error (invalidChar c "looking for beginning of value")
/-- Scans the elements of a non-empty array up to its closing bracket. -/
def scanElems : Nat → Nat → List Char → Except String (List Value × List Char)
  | 0, _, _ => .error eofError
  | fuel + 1, depth, cs =>
    match scanValue fuel depth cs with
    | .error e => .error e
    | .ok (v, rest) =>
      match skipSpace rest with
      | [] => .error eofError
      | c :: rest1 =>
        if c = ',' then (scanElems fuel depth rest1).map fun p => (v :: p.1, p.2)
        else if c = ']' then .ok ([v], rest1)
        else .error (invalidChar c "after array element")
/-- Scans the members of a non-empty object up to its closing brace; the
text starts at the first character of a key. -/
def scanMembers : Nat → Nat → List Char → Except String (List (String × Value) × List Char)
  | 0, _, _ => .error eofError
  | fuel + 1, depth, cs =>
    match cs with
    | [] => .error eofError
    | q :: afterQuote =>
      if q ≠ '"' then .error (invalidChar q "looking for beginning of object key string")
      else
        match scanString afterQuote.length afterQuote with
        | .error e => .error e
        | .ok (key, rest) =>
          match skipSpace rest with
          | [] => .error eofError
          | colon :: rest1 =>
            if colon ≠ ':' then .error (invalidChar colon "after object key")
            else
              match scanValue fuel depth rest1 with
              | .error e => .error e
              | .ok (v, rest2) =>
                match skipSpace rest2 with
                | [] => .error eofError
                | c :: rest3 =>
                  if c = ',' then
                    (scanMembers fuel depth (skipSpace rest3)).map fun p =>
                      ((String.mk key, v) :: p.1, p.2)
                  else if c = '\x7d' then .ok ([(String.mk key, v)], rest3)
                  else .error (invalidChar c "after object key:value pair")
end

/-- The value a JSON text denotes, or the text of the library's syntax error:
one value, white space around it, nothing after it.  The fuel is twice the
length of the text, which the scanner never exhausts (`parse_fuel`). -/
def parse (data : String) : Except String Value :=
  match scanValue (2 * data.length + 2) 0 data.toList with
  | .error e => .error e
  | .ok (v, rest) =>
    match skipSpace rest with
    | [] => .ok v
    | c :: _ => .error (invalidChar c "after top-level value")

/-- The word the library uses for a value's kind in a type error. -/
def Value.kind : Value → String
  | .null => "null"
  | .bool _ => "bool"
  | .number _ => "number"
  | .string _ => "string"
  | .array _ => "array"
  | .object _ => "object"

/-- The fields of `InputStruct`, by JSON name. -/
inductive Field where
  | a
  | b
  | c
deriving DecidableEq, Repr

/-- The field an object key is decoded into: the name itself or, failing an
exact match, the name with the letter case ignored. -/
def fieldByName (key : String) : Option Field :=
  if key = "a" ∨ key = "A" then some .a
  else if key = "b" ∨ key = "B" then some .b
  else if key = "c" ∨ key = "C" then some .c
  else none

/-- The text of an `UnmarshalTypeError` for a field of `InputStruct`. -/
def typeError (value field type : String) : String :=
  "json: cannot unmarshal " ++ value ++ " into Go struct field InputStruct." ++ field ++
    " of type " ++ type

/-- The library function `strconv.ParseInt(lit, 10, 64)` on a JSON number
literal: an optional minus sign and decimal digits, within 64 bits. -/
def parseInt64 (lit : String) : Option Int :=
  let signed : Bool × List Char :=
    match lit.toList with
    | '-' :: ds => (true, ds)
    | ds => (false, ds)
  if signed.2 = [] ∨ signed.2.all isDigit = false then none
  else
    let n : Nat := signed.2.foldl (fun acc c => 10 * acc + (c.toNat - 48)) 0
    let v : Int := if signed.1 then -(n : Int) else (n : Int)
    if -9223372036854775808 ≤ v ∧ v ≤ 9223372036854775807 then some v else none

/-- Decoding one member value into a field: `null` leaves the field as it is,
a value of the field's type is stored, anything else is a type error. -/
def decodeField (input : InputStruct) (f : Field) (v : Value) : InputStruct × Option String :=
  match f, v with
  | _, .null => (input, none)
  | .a, .string s => ({ input with A := s }, none)
  | .a, other => (input, some (typeError other.kind "a" "string"))
  | .b, .number lit =>
    match parseInt64 lit with
    | some n => ({ input with B := n }, none)
    | none => (input, some (typeError ("number " ++ lit) "b" "int"))
  | .b, other => (input, some (typeError other.kind "b" "int"))
  | .c, .bool t => ({ input with C := t }, none)
  | .c, other => (input, some (typeError other.kind "c" "bool"))

/-- Decoding the members of an object in order: unknown keys are skipped and
the first type error is kept while decoding goes on. -/
def decodeObject : List (String × Value) → InputStruct → Option String →
    InputStruct × Option String
  | [], input, saved => (input, saved)
  | (key, v) :: rest, input, saved =>
    match fieldByName key with
    | none => decodeObject rest input saved
    | some f =>
      let step := decodeField input f v
      decodeObject rest step.1 (saved.orElse fun _ => step.2)

/-- The zero value of `InputStruct`, what `var input InputStruct` declares. -/
def zeroInput : InputStruct := { A := "", B := 0, C := false }

/-- Decoding a JSON value into a fresh `InputStruct`. -/
def decodeValue : Value → Except String InputStruct
  | .null => .ok zeroInput
  | .object members =>
    match decodeObject members zeroInput none with
    | (input, none) => .ok input
    | (_, some err) => .error err
  | other =>
    .error ("json: cannot unmarshal " ++ other.kind ++ " into Go value of type main.InputStruct")

/-- The library function `json.Unmarshal(data, &input)` for a fresh
`InputStruct`. -/
def Unmarshal (data : String) : Except String InputStruct :=
  match parse data with
  | .error e => .error e
  | .ok v => decodeValue v

def hexDigit (n : Nat) : Char :=
  if n < 10 then Char.ofNat (48 + n) else Char.ofNat (87 + n)

/-- One character of a string as `json.Marshal` writes it: HTML-safe
escaping, the library's default, with the short forms `\b` and `\f` that the
library uses since Go 1.22. -/
def escapeChar (c : Char) : List Char :=
  if c = '"' then ['\\', '"']
  else if c = '\\' then ['\\', '\\']
  else if c = '\n' then ['\\', 'n']
  else if c = '\r' then ['\\', 'r']
  else if c = '\t' then ['\\', 't']
  else if c = Char.ofNat 8 then ['\\', 'b']
  else if c = Char.ofNat 12 then ['\\', 'f']
  else if c.toNat < 32 ∨ c = '<' ∨ c = '>' ∨ c = '&' then
    ['\\', 'u', '0', '0', hexDigit (c.toNat / 16), hexDigit (c.toNat % 16)]
  else if c.toNat = 0x2028 then ['\\', 'u', '2', '0', '2', '8']
  else if c.toNat = 0x2029 then ['\\', 'u', '2', '0', '2', '9']
  else [c]

/-- A string as a JSON string literal. -/
def quote (s : String) : String :=
  String.mk ('"' :: (s.toList.flatMap escapeChar ++ ['"']))

/-- The library function `strconv.FormatInt(n, 10)`. -/
def formatInt (n : Int) : String :=
  if n < 0 then "-" ++ Nat.repr n.natAbs else Nat.repr n.natAbs

/-- The library function `json.Marshal` on an `OutputStruct`: the three
fields in declaration order; it has no failing case for this type. -/
def Marshal (output : OutputStruct) : Except String String :=
  .ok ("\x7b\"d\":" ++ quote output.D ++ ",\"e\":" ++ (if output.E then "true" else "false") ++
    ",\"f\":" ++ formatInt output.F ++ "\x7d")

/-- The handler's environment with the library model above and a transport
that accepts every write. -/
def goEnv : Env := { Unmarshal := Unmarshal, Marshal := Marshal, WriteErr := fun _ => none }


/-! ## Objects with omitted fields -/

/-- The object has no member that is decoded into the field. -/
def omits (members : List (String × Value)) (f : Field) : Bool :=
  members.all fun kv => decide (fieldByName kv.1 ≠ some f)

/-- The values the decoder takes for a field without a type error: `null`, a
string for `a`, an integer literal within 64 bits for `b`, a boolean for `c`. -/
def accepts (f : Field) (v : Value) : Bool :=
  match f, v with
  | _, .null => true
  | .a, .string _ => true
  | .b, .number lit => (parseInt64 lit).isSome
  | .c, .bool _ => true
  | _, _ => false

/-- Every member that is decoded into a field holds a value the field takes. -/
def wellTyped (members : List (String × Value)) : Prop :=
  ∀ kv ∈ members, ∀ f, fieldByName kv.1 = some f → accepts f kv.2 = true

/-- The value is the zero value of the field, in any spelling the decoder
takes: the empty string for `a`, an integer literal equal to 0 for `b`,
`false` for `c`. -/
def isZeroOf : Field → Value → Bool
  | .a, .string s => decide (s = "")
  | .b, .number lit => decide (parseInt64 lit = some 0)
  | .c, .bool t => !t
  | _, _ => false

/-- The member gives the zero value explicitly to a field that `members`
omits. -/
def spellsZero (members : List (String × Value)) (kv : String × Value) : Bool :=
  match fieldByName kv.1 with
  | some f => omits members f && isZeroOf f kv.2
  | none => false

/-- The object `explicit` is `members` with members added, anywhere and in
any number, each giving an omitted field its zero value. -/
def addsZeros (members explicit : List (String × Value)) : Prop :=
  explicit.filter (fun kv => !spellsZero members kv) = members

/-- The text `{"x":[[...]]}` with 10000 arrays inside one another: an object
with one unknown member, nested one level deeper than the decoder accepts. -/
def deepChars : List Char :=
  ['\x7b', '"', 'x', '"', ':'] ++
    (List.replicate 10000 '[' ++ (List.replicate 10000 ']' ++ ['\x7d']))

def deepBody : String := String.mk deepChars

/-! ## Listener lifecycle (`converter.go`, lines 16-63) -/

/-- The Go struct `Server`; of its `HTTPServer` only the outcomes of the
calls made on it matter, and they are inputs of the model. -/
structure Server where
  Address : String

/-- The signals the model distinguishes: the two the program asks for, and
two that a process ignores by default. -/
inductive Signal where
  | SIGINT
  | SIGTERM
  | SIGCHLD
  | SIGWINCH
deriving DecidableEq, Repr

/-- The channel `gracefulStop` together with its registration in package
`os/signal`: the signals relayed into it, its buffer and whether it is closed. -/
structure SignalChan where
  capacity : Nat
  registered : List Signal
  buffer : List Signal
  closed : Bool
deriving DecidableEq, Repr

/-- The Go expression `make(chan os.Signal, n)`. -/
def SignalChan.make (n : Nat) : SignalChan :=
  { capacity := n, registered := [], buffer := [], closed := false }

/-- The library function `signal.Notify(c, sig)`: adds `sig` to the signals
relayed into the channel. -/
def SignalChan.Notify (ch : SignalChan) (sig : Signal) : SignalChan :=
  if sig ∈ ch.registered then ch else { ch with registered := ch.registered ++ [sig] }

/-- The library function `signal.Stop(c)`: ends the relaying; the program
never calls it. -/
def SignalChan.Stop (ch : SignalChan) : SignalChan :=
  { ch with registered := [] }

/-- The Go statement `close(c)`: it closes the channel and leaves the
registration alone. -/
def SignalChan.close (ch : SignalChan) : SignalChan :=
  { ch with closed := true }

/-- Whether a signal reaching the process makes package `os/signal` send on
a closed channel, which panics with "send on closed channel": the channel is
registered for the signal and closed. -/
def SignalChan.panicsOn (ch : SignalChan) (sig : Signal) : Bool :=
  decide (sig ∈ ch.registered) && ch.closed

/-- A signal reaching the process: relayed into the channel without blocking,
dropped when the channel is not registered for it or its buffer is full. -/
def SignalChan.deliver (ch : SignalChan) (sig : Signal) : SignalChan :=
  if sig ∈ ch.registered ∧ ch.buffer.length < ch.capacity then
    { ch with buffer := ch.buffer ++ [sig] }
  else ch

/-- The Go expression `<-c` on an open channel, given the signals the process
is sent from now on: the buffered signal if there is one, else the first
later signal that is relayed; `none` when no such signal ever comes and the
receive stays blocked. -/
def SignalChan.receive (ch : SignalChan) (later : List Signal) : Option (Signal × SignalChan) :=
  match ch.buffer with
  | sig :: rest => some (sig, { ch with buffer := rest })
  | [] =>
    match later.find? fun sig => decide (sig ∈ ch.registered) with
    | some sig => some (sig, ch)
    | none => none

/-- What the lifecycle code does, in program order. -/
inductive Event where
  | Notify (sig : Signal)
  | Listen (addr : String)
  | goServe (bound : String)
  | Sleep
  | Println (msg : String)
  | closeStop
  | receive (sig : Signal)
  | Shutdown
deriving DecidableEq, Repr

/-- What `Start` meets outside the program: the outcome of
`net.Listen("tcp", addr)` (the bound address, or the bind error), and what the
channel `errors` holds when it is inspected after the sleep (`none`: nothing
yet; `some e`: the value `HTTPServer.Serve` has returned). -/
structure StartEnv where
  Listen : String → Except String String
  early : Option (Option String)

/-- The Go method `Server.Start`: the error returned and the events. -/
def Server.Start (s : Server) (env : StartEnv) : Option String × List Event :=
  let addr := s.Address
  match env.Listen addr with
  | .error err => (some err, [.Listen addr])
  | .ok bound =>
    match env.early with
    | some err => (err, [.Listen addr, .goServe bound, .Sleep])
    | none =>
      (none, [.Listen addr, .goServe bound, .Sleep,
              .Println ("Service is listening on http://" ++ bound ++ "/")])

/-- What `Serve` meets outside the program: the environment of `Start`, the
signals the process is sent while `Start` runs and afterwards, and the value
`HTTPServer.Shutdown` returns. -/
structure ServeEnv where
  start : StartEnv
  duringStart : List Signal
  afterStart : List Signal
  ShutdownResult : Option String

/-- One run of `Serve`: the value returned (`none` while the receive on
`gracefulStop` is still blocked), the events, and the final state of
`gracefulStop`. -/
structure ServeRun where
  result : Option (Option String)
  events : List Event
  gracefulStop : SignalChan
deriving DecidableEq, Repr

/-- The Go method `Server.Serve`. -/
def Server.Serve (s : Server) (env : ServeEnv) : ServeRun :=
  let gracefulStop := ((SignalChan.make 1).Notify .SIGTERM).Notify .SIGINT
  let started := s.Start env.start
  let gracefulStop1 := env.duringStart.foldl SignalChan.deliver gracefulStop
  let events := [Event.Notify .SIGTERM, Event.Notify .SIGINT] ++ started.2
  match started.1 with
  | some err =>
    { result := some (some err), events := events ++ [.closeStop],
      gracefulStop := gracefulStop1.close }
  | none =>
    let events1 := events ++ [.Println "Please press Ctrl+C to stop service"]
    match gracefulStop1.receive env.afterStart with
    | none => { result := none, events := events1, gracefulStop := gracefulStop1 }
    | some (sig, gracefulStop2) =>
      { result := some env.ShutdownResult,
        events := events1 ++ [.receive sig, .Println "Gracefully stopping service", .Shutdown],
        gracefulStop := gracefulStop2 }

/-! ## Sample runs of the lifecycle -/

/-- An address that is already in use. -/
def addressInUse : StartEnv :=
  { Listen := fun addr => .error ("listen tcp " ++ addr ++ ": bind: address already in use"),
    early := none }

/-- Port 8088 of the loopback address is held by another process. -/
def portTaken : StartEnv :=
  { Listen := fun _ => .error "listen tcp 127.0.0.1:8088: bind: address already in use",
    early := none }

/-- A run in which binding the listener fails and no signal is sent before
`Serve` returns. -/
def bindFailureRun : ServeEnv :=
  { start := portTaken, duringStart := [], afterStart := [], ShutdownResult := none }

/-- A run in which the listener binds, the serving task keeps running, the
process is sent SIGWINCH and then SIGINT, and `Shutdown` reports no error. -/
def interruptedRun : ServeEnv :=
  { start := { Listen := fun _ => .ok "127.0.0.1:8088", early := none },
    duringStart := [], afterStart := [.SIGWINCH, .SIGINT], ShutdownResult := none }

/-! ## The conversion and the request handler: properties -/

/-- C1: for every input record `(a, b, c)`, `convert` returns the output
record with `d = a`, `e = c` and `f = b`, each value unchanged. -/
theorem convert_maps_fields (a : String) (b : Int) (c : Bool) :
    (convert { A := a, B := b, C := c }).1 = { D := a, E := c, F := b } ∧
    (convert { A := a, B := b, C := c }).1.D = a ∧
    (convert { A := a, B := b, C := c }).1.E = c ∧
    (convert { A := a, B := b, C := c }).1.F = b :=
  ⟨rfl, rfl, rfl, rfl⟩

/-- The response of the success path, whatever the transport says about the
write. -/
theorem handler_ok_response (env : Env) (r : Request) (data : String) (i : InputStruct)
    (encoded : String) (hm : r.Method = MethodPost) (hb : r.Body = .ok data)
    (hu : env.Unmarshal data = .ok i)
    (he : env.Marshal { D := i.A, E := i.C, F := i.B } = .ok encoded) :
    (handler env newResponseWriter r).w =
      { Header := [("Content-Type", "application/json; charset=utf-8")],
        status := some 200, body := encoded } := by
  unfold handler
  simp only [hm, hb, hu, convert, he, if_true]
  cases env.WriteErr encoded <;> rfl

/-- The record the success path encodes is the converted input. -/
theorem handler_ok_calls (env : Env) (r : Request) (data : String) (i : InputStruct)
    (encoded : String) (hm : r.Method = MethodPost) (hb : r.Body = .ok data)
    (hu : env.Unmarshal data = .ok i)
    (he : env.Marshal { D := i.A, E := i.C, F := i.B } = .ok encoded) :
    Call.Marshal { D := i.A, E := i.C, F := i.B } ∈ (handler env newResponseWriter r).calls := by
  unfold handler
  simp only [hm, hb, hu, convert, he, if_true]
  cases env.WriteErr encoded <;> simp

/-- C2: a POST request whose body is read, decodes to `i` and whose output
encodes to `encoded` gets exactly: status 200, the single header
`Content-Type: application/json; charset=utf-8`, and the encoding of the
record `d = i.a, e = i.c, f = i.b` as the body. -/
theorem handler_post_success (env : Env) (r : Request) (data : String) (i : InputStruct)
    (encoded : String) (hm : r.Method = MethodPost) (hb : r.Body = .ok data)
    (hu : env.Unmarshal data = .ok i)
    (he : env.Marshal { D := i.A, E := i.C, F := i.B } = .ok encoded) :
    (handler env newResponseWriter r).w =
      { Header := [("Content-Type", "application/json; charset=utf-8")],
        status := some 200, body := encoded } :=
  handler_ok_response env r data i encoded hm hb hu he

/-- The example of C2 on the library model: the body
`{"a":"hello","b":42,"c":true}` gives 200 with body
`{"d":"hello","e":true,"f":42}`. -/
theorem handler_post_success_witness :
    (handler goEnv newResponseWriter
        { Method := "POST", Body := .ok "\x7b\"a\":\"hello\",\"b\":42,\"c\":true\x7d" }).w =
      { Header := [("Content-Type", "application/json; charset=utf-8")],
        status := some 200, body := "\x7b\"d\":\"hello\",\"e\":true,\"f\":42\x7d" } :=
  handler_post_success goEnv
    { Method := "POST", Body := .ok "\x7b\"a\":\"hello\",\"b\":42,\"c\":true\x7d" }
    "\x7b\"a\":\"hello\",\"b\":42,\"c\":true\x7d" { A := "hello", B := 42, C := true }
    "\x7b\"d\":\"hello\",\"e\":true,\"f\":42\x7d" rfl rfl rfl rfl

/-- C3 as stated fails: a GET request is answered 405, but the body `http.Error`
writes is the message followed by a line feed, not the bare message. -/
theorem handler_get_body_has_line_feed :
    (handler goEnv newResponseWriter { Method := "GET", Body := .ok "" }).w.status = some 405 ∧
    (handler goEnv newResponseWriter { Method := "GET", Body := .ok "" }).w.body =
      "Method Not Allowed\n" ∧
    (handler goEnv newResponseWriter { Method := "GET", Body := .ok "" }).w.body ≠
      "Method Not Allowed" := by
  decide

/-- C3, amended: a request whose method is not POST gets status 405 with the
plain-text body "Method Not Allowed" followed by a line feed, and the single
operation performed is that `http.Error` call: the body is not read, decoded
or converted. -/
theorem handler_method_not_allowed (env : Env) (r : Request) (hm : r.Method ≠ MethodPost) :
    handler env newResponseWriter r =
      { w := { Header := [("Content-Type", "text/plain; charset=utf-8"),
                          ("X-Content-Type-Options", "nosniff")],
               status := some 405, body := "Method Not Allowed\n" },
        calls := [.Error "Method Not Allowed" 405] } := by
  unfold handler
  rw [if_neg hm]
  rfl

/-- A GET request, whose body is never looked at. -/
theorem handler_method_not_allowed_witness :
    handler goEnv newResponseWriter { Method := "GET", Body := .error "unused" } =
      { w := { Header := [("Content-Type", "text/plain; charset=utf-8"),
                          ("X-Content-Type-Options", "nosniff")],
               status := some 405, body := "Method Not Allowed\n" },
        calls := [.Error "Method Not Allowed" 405] } :=
  handler_method_not_allowed goEnv { Method := "GET", Body := .error "unused" } (by decide)

/-- The reply `http.Error` produces on the writer a handler is given. -/
theorem Error_newResponseWriter (err : String) (code : Nat) :
    Error newResponseWriter err code =
      { Header := [("Content-Type", "text/plain; charset=utf-8"),
                   ("X-Content-Type-Options", "nosniff")],
        status := some code, body := err ++ "\n" } := rfl

/-- The five ways a handler call can go, each with the whole exchange it
produces. -/
theorem handler_cases (env : Env) (r : Request) :
    (r.Method ≠ MethodPost ∧
      handler env newResponseWriter r =
        { w := Error newResponseWriter "Method Not Allowed" 405,
          calls := [.Error "Method Not Allowed" 405] }) ∨
    (∃ err, r.Method = MethodPost ∧ r.Body = .error err ∧
      handler env newResponseWriter r =
        { w := Error newResponseWriter err 400, calls := [.ReadAll, .Error err 400] }) ∨
    (∃ data err, r.Method = MethodPost ∧ r.Body = .ok data ∧ env.Unmarshal data = .error err ∧
      handler env newResponseWriter r =
        { w := Error newResponseWriter err 400,
          calls := [.ReadAll, .Unmarshal data, .Error err 400] }) ∨
    (∃ data input err, r.Method = MethodPost ∧ r.Body = .ok data ∧
      env.Unmarshal data = .ok input ∧ env.Marshal (convert input).1 = .error err ∧
      handler env newResponseWriter r =
        { w := Error newResponseWriter err 500,
          calls := [.ReadAll, .Unmarshal data, .convert input, .Marshal (convert input).1,
                    .Error err 500] }) ∨
    (∃ data input encoded, r.Method = MethodPost ∧ r.Body = .ok data ∧
      env.Unmarshal data = .ok input ∧ env.Marshal (convert input).1 = .ok encoded ∧
      (handler env newResponseWriter r).w =
        { Header := [("Content-Type", "application/json; charset=utf-8")],
          status := some 200, body := encoded }) := by
  by_cases hm : r.Method = MethodPost
  · right
    cases hb : r.Body with
    | error err =>
      left
      exact ⟨err, hm, rfl, by simp [handler, hm, hb, StatusBadRequest]⟩
    | ok data =>
      right
      cases hu : env.Unmarshal data with
      | error err =>
        left
        exact ⟨data, err, hm, rfl, hu, by simp [handler, hm, hb, hu, StatusBadRequest]⟩
      | ok input =>
        right
        cases he : env.Marshal (convert input).1 with
        | error err =>
          left
          refine ⟨data, input, err, hm, rfl, hu, he, ?_⟩
          simp only [convert] at he
          simp [handler, hm, hb, hu, convert, he, StatusInternalServerError]
        | ok encoded =>
          right
          refine ⟨data, input, encoded, hm, rfl, hu, he, ?_⟩
          simp only [convert] at he
          exact handler_ok_response env r data input encoded hm hb hu he
  · left
    refine ⟨hm, ?_⟩
    simp [handler, hm, StatusMethodNotAllowed]

/-- The spec's example of a malformed body: `{"a":` is answered 400 with the
decoder's error as a line of plain text. -/
theorem handler_malformed_body :
    (handler goEnv newResponseWriter { Method := "POST", Body := .ok "\x7b\"a\":" }).w =
      { Header := [("Content-Type", "text/plain; charset=utf-8"),
                   ("X-Content-Type-Options", "nosniff")],
        status := some 400, body := "unexpected end of JSON input\n" } := by
  decide

/-- The spec's example of a wrong field type: `{"a":1,"b":"x","c":true}` is
answered 400. -/
theorem handler_wrong_field_type :
    (handler goEnv newResponseWriter
      { Method := "POST", Body := .ok "\x7b\"a\":1,\"b\":\"x\",\"c\":true\x7d" }).w.status =
      some 400 := by
  decide

/-- The spec's example of explicit zero values: `{"a":"","b":0,"c":false}` is
answered 200 with body `{"d":"","e":false,"f":0}`. -/
theorem handler_zero_values :
    (handler goEnv newResponseWriter
      { Method := "POST", Body := .ok "\x7b\"a\":\"\",\"b\":0,\"c\":false\x7d" }).w =
      { Header := [("Content-Type", "application/json; charset=utf-8")],
        status := some 200, body := "\x7b\"d\":\"\",\"e\":false,\"f\":0\x7d" } := by
  decide

/-- C4 as stated fails: when reading the body fails, the 400 response body is
the error text followed by a line feed, not the error text itself. -/
theorem handler_read_failure_body_has_line_feed :
    (handler goEnv newResponseWriter { Method := "POST", Body := .error "unexpected EOF" }).w.status
      = some 400 ∧
    (handler goEnv newResponseWriter { Method := "POST", Body := .error "unexpected EOF" }).w.body
      = "unexpected EOF\n" ∧
    (handler goEnv newResponseWriter { Method := "POST", Body := .error "unexpected EOF" }).w.body
      ≠ "unexpected EOF" := by
  decide

/-- C4, amended: the handler answers 400 exactly when the method is POST and
reading the body fails or decoding it fails; the response body is then the
text of that error followed by a line feed, and neither `convert` nor
`json.Marshal` is called. -/
theorem handler_bad_request (env : Env) (r : Request) :
    ((handler env newResponseWriter r).w.status = some 400 ↔
      r.Method = MethodPost ∧
        ((∃ err, r.Body = .error err) ∨
         ∃ data err, r.Body = .ok data ∧ env.Unmarshal data = .error err)) ∧
    ((handler env newResponseWriter r).w.status = some 400 →
      ∃ err, (r.Body = .error err ∨ ∃ data, r.Body = .ok data ∧ env.Unmarshal data = .error err) ∧
        (handler env newResponseWriter r).w.body = err ++ "\n" ∧
        ∀ c ∈ (handler env newResponseWriter r).calls,
          (∀ input, c ≠ .convert input) ∧ (∀ output, c ≠ .Marshal output)) := by
  rcases handler_cases env r with ⟨hm, h⟩ | ⟨err, hm, hb, h⟩ | ⟨data, err, hm, hb, hu, h⟩ |
    ⟨data, input, err, hm, hb, hu, he, h⟩ | ⟨data, input, encoded, hm, hb, hu, he, h⟩
  · simp [h, Error_newResponseWriter, hm]
  · simp [h, Error_newResponseWriter, hm, hb]
  · simp [h, Error_newResponseWriter, hm, hb, hu]
  · simp [h, Error_newResponseWriter, hm, hb, hu]
  · simp [h, hm, hb, hu]

/-- C5: `convert` returns a nil error for every input; the handler answers 500
exactly when the method is POST, the body was read and decoded, and encoding
the converted record fails; and every 500 reply comes after a `json.Marshal`
call, so the 500 branch on `convert`'s error is never taken. -/
theorem handler_internal_error (env : Env) (r : Request) :
    (∀ input, (convert input).2 = none) ∧
    ((handler env newResponseWriter r).w.status = some 500 ↔
      r.Method = MethodPost ∧
        ∃ data input err, r.Body = .ok data ∧ env.Unmarshal data = .ok input ∧
          env.Marshal (convert input).1 = .error err) ∧
    (∀ err, Call.Error err 500 ∈ (handler env newResponseWriter r).calls →
      ∃ output, Call.Marshal output ∈ (handler env newResponseWriter r).calls) := by
  refine ⟨fun _ => rfl, ?_⟩
  rcases handler_cases env r with ⟨hm, h⟩ | ⟨err, hm, hb, h⟩ | ⟨data, err, hm, hb, hu, h⟩ |
    ⟨data, input, err, hm, hb, hu, he, h⟩ | ⟨data, input, encoded, hm, hb, hu, he, h⟩
  · simp [h, Error_newResponseWriter, hm]
  · simp [h, Error_newResponseWriter, hm, hb]
  · simp [h, Error_newResponseWriter, hm, hb, hu]
  · simp [h, Error_newResponseWriter, hm, hb, hu, he]
  · have hcalls : ∀ err, Call.Error err 500 ∉ (handler env newResponseWriter r).calls := by
      intro err
      simp only [convert] at he
      unfold handler
      simp only [hm, hb, hu, convert, he, if_true]
      cases env.WriteErr encoded <;> simp
    simp [h, hm, hb, hu, he, hcalls]

/-! ## The listener lifecycle: properties -/

theorem deliver_registered (ch : SignalChan) (sig : Signal) :
    (ch.deliver sig).registered = ch.registered := by
  unfold SignalChan.deliver
  split <;> rfl

theorem deliver_capacity (ch : SignalChan) (sig : Signal) :
    (ch.deliver sig).capacity = ch.capacity := by
  unfold SignalChan.deliver
  split <;> rfl

theorem foldl_deliver_registered (sigs : List Signal) (ch : SignalChan) :
    (sigs.foldl SignalChan.deliver ch).registered = ch.registered := by
  induction sigs generalizing ch with
  | nil => rfl
  | cons sig rest ih => rw [List.foldl_cons, ih, deliver_registered]

/-- Whatever sits in the buffer was there before or is a relayed signal that
was sent. -/
theorem foldl_deliver_buffer (sigs : List Signal) (ch : SignalChan) :
    ∀ x ∈ (sigs.foldl SignalChan.deliver ch).buffer,
      x ∈ ch.buffer ∨ (x ∈ sigs ∧ x ∈ ch.registered) := by
  induction sigs generalizing ch with
  | nil => intro x hx; exact Or.inl hx
  | cons sig rest ih =>
    intro x hx
    rw [List.foldl_cons] at hx
    rcases ih (ch.deliver sig) x hx with h | ⟨h1, h2⟩
    · unfold SignalChan.deliver at h
      split at h
      · rename_i hc
        rcases List.mem_append.mp h with h | h
        · exact Or.inl h
        · rw [List.mem_singleton] at h
          exact Or.inr ⟨by simp [h], h ▸ hc.1⟩
      · exact Or.inl h
    · rw [deliver_registered] at h2
      exact Or.inr ⟨List.mem_cons_of_mem _ h1, h2⟩

/-- Deliveries never empty a buffer. -/
theorem foldl_deliver_buffer_ne_nil (sigs : List Signal) (ch : SignalChan)
    (h : ch.buffer ≠ []) : (sigs.foldl SignalChan.deliver ch).buffer ≠ [] := by
  induction sigs generalizing ch with
  | nil => exact h
  | cons sig rest ih =>
    rw [List.foldl_cons]
    apply ih
    unfold SignalChan.deliver
    split
    · simp
    · exact h

/-- A relayed signal sent to a channel with room leaves its buffer non-empty. -/
theorem foldl_deliver_buffered (sigs : List Signal) (ch : SignalChan) (hcap : 0 < ch.capacity)
    (h : ∃ sig ∈ sigs, sig ∈ ch.registered) :
    (sigs.foldl SignalChan.deliver ch).buffer ≠ [] := by
  induction sigs generalizing ch with
  | nil => simp at h
  | cons sig rest ih =>
    rw [List.foldl_cons]
    by_cases hb : (ch.deliver sig).buffer = []
    · obtain ⟨x, hx, hreg⟩ := h
      rcases List.mem_cons.mp hx with hx | hx
      · subst hx
        exfalso
        unfold SignalChan.deliver at hb
        split at hb
        · simp at hb
        · rename_i hc
          apply hc
          exact ⟨hreg, by rw [hb]; exact hcap⟩
      · exact ih (ch.deliver sig) (by rw [deliver_capacity]; exact hcap)
          ⟨x, hx, by rw [deliver_registered]; exact hreg⟩
    · exact foldl_deliver_buffer_ne_nil rest _ hb

/-- The events of `Start` are its own: no signal handling, no shutdown. -/
theorem Start_events (s : Server) (env : StartEnv) :
    ∀ e ∈ (s.Start env).2, e ≠ .Shutdown ∧ e ≠ .closeStop ∧ ∀ sig, e ≠ .receive sig := by
  cases hl : env.Listen s.Address with
  | error err => simp [Server.Start, hl]
  | ok bound => cases he : env.early <;> simp [Server.Start, hl, he]

/-- C9: when binding the listener fails, `Start` returns that bind error and
the bind attempt is all it did: the serving task is not launched (so no
request is served) and nothing is printed. -/
theorem Start_bind_failure (s : Server) (env : StartEnv) (err : String)
    (h : env.Listen s.Address = .error err) :
    s.Start env = (some err, [.Listen s.Address]) ∧
    (∀ bound, Event.goServe bound ∉ (s.Start env).2) ∧
    (∀ msg, Event.Println msg ∉ (s.Start env).2) := by
  have hs : s.Start env = (some err, [.Listen s.Address]) := by
    unfold Server.Start
    simp only [h]
  simp [hs]

/-- Starting on `localhost:8088` while the address is in use. -/
theorem Start_bind_failure_witness :
    Server.Start { Address := "localhost:8088" } addressInUse =
        (some "listen tcp localhost:8088: bind: address already in use",
         [.Listen "localhost:8088"]) ∧
    (∀ bound, Event.goServe bound ∉
        (Server.Start { Address := "localhost:8088" } addressInUse).2) ∧
    (∀ msg, Event.Println msg ∉
        (Server.Start { Address := "localhost:8088" } addressInUse).2) :=
  Start_bind_failure { Address := "localhost:8088" } addressInUse
    "listen tcp localhost:8088: bind: address already in use" rfl

/-- The channel `Serve` waits on, as set up by its first three statements. -/
theorem gracefulStop_initial :
    ((SignalChan.make 1).Notify .SIGTERM).Notify .SIGINT =
      { capacity := 1, registered := [.SIGTERM, .SIGINT], buffer := [], closed := false } := by
  decide

/-- The receive on `gracefulStop` after the signals sent during `Start`:
it yields a termination signal that was sent, as soon as one was. -/
theorem receive_of_termination (ch : SignalChan) (during later : List Signal)
    (hch : ch = { capacity := 1, registered := [.SIGTERM, .SIGINT], buffer := [], closed := false })
    (h : ∃ sig ∈ during ++ later, sig = Signal.SIGINT ∨ sig = Signal.SIGTERM) :
    ∃ sig ch2, (during.foldl SignalChan.deliver ch).receive later = some (sig, ch2) ∧
      (sig = Signal.SIGINT ∨ sig = Signal.SIGTERM) ∧ sig ∈ during ++ later := by
  have hreg : ∀ x : Signal, x ∈ ch.registered ↔ (x = .SIGINT ∨ x = .SIGTERM) := by
    intro x
    subst hch
    cases x <;> simp
  unfold SignalChan.receive
  cases hb : (during.foldl SignalChan.deliver ch).buffer with
  | cons sig rest =>
    refine ⟨sig, _, rfl, ?_⟩
    have hmem : sig ∈ (during.foldl SignalChan.deliver ch).buffer := by simp [hb]
    rcases foldl_deliver_buffer during ch sig hmem with h0 | ⟨h1, h2⟩
    · subst hch
      simp at h0
    · exact ⟨(hreg sig).mp h2, List.mem_append_left _ h1⟩
  | nil =>
    have hnot : ¬ ∃ sig ∈ during, sig ∈ ch.registered := by
      intro hex
      exact foldl_deliver_buffered during ch (by subst hch; decide) hex hb
    obtain ⟨x, hx, hterm⟩ := h
    have hxl : x ∈ later := by
      rcases List.mem_append.mp hx with hx | hx
      · exact absurd ⟨x, hx, (hreg x).mpr hterm⟩ hnot
      · exact hx
    cases hf : later.find?
        (fun sig => decide (sig ∈ (during.foldl SignalChan.deliver ch).registered)) with
    | none =>
      exfalso
      have := List.find?_eq_none.mp hf x hxl
      simp only [foldl_deliver_registered, decide_eq_true_eq] at this
      exact this ((hreg x).mpr hterm)
    | some sig =>
      refine ⟨sig, _, rfl, ?_⟩
      have hp := List.find?_some hf
      have hm := List.mem_of_find?_eq_some hf
      simp only [foldl_deliver_registered, decide_eq_true_eq] at hp
      exact ⟨(hreg sig).mp hp, List.mem_append_right _ hm⟩

/-- The receive on `gracefulStop` stays blocked when no termination signal is
ever sent. -/
theorem receive_blocked (ch : SignalChan) (during later : List Signal)
    (hch : ch = { capacity := 1, registered := [.SIGTERM, .SIGINT], buffer := [], closed := false })
    (h : ∀ sig ∈ during ++ later, sig ≠ Signal.SIGINT ∧ sig ≠ Signal.SIGTERM) :
    (during.foldl SignalChan.deliver ch).receive later = none := by
  have hreg : ∀ x : Signal, x ∈ ch.registered ↔ (x = .SIGINT ∨ x = .SIGTERM) := by
    intro x
    subst hch
    cases x <;> simp
  unfold SignalChan.receive
  cases hb : (during.foldl SignalChan.deliver ch).buffer with
  | cons sig rest =>
    exfalso
    have hmem : sig ∈ (during.foldl SignalChan.deliver ch).buffer := by simp [hb]
    rcases foldl_deliver_buffer during ch sig hmem with h0 | ⟨h1, h2⟩
    · subst hch
      simp at h0
    · have := h sig (List.mem_append_left _ h1)
      rcases (hreg sig).mp h2 with h3 | h3
      · exact this.1 h3
      · exact this.2 h3
  | nil =>
    have hf : later.find?
        (fun sig => decide (sig ∈ (during.foldl SignalChan.deliver ch).registered)) = none := by
      rw [List.find?_eq_none]
      intro x hx
      simp only [foldl_deliver_registered, decide_eq_true_eq]
      intro hx2
      have := h x (List.mem_append_right _ hx)
      rcases (hreg x).mp hx2 with h3 | h3
      · exact this.1 h3
      · exact this.2 h3
    simp only [hf]

/-- C7: the claim says that `Serve` deregisters signal handling when `Start`
fails.  With port 8088 taken, `Serve` returns the bind error, but all it did
to the signal setup is `close(gracefulStop)`: the channel is left closed and
still registered for SIGTERM and SIGINT, so either signal reaching the
process afterwards is sent on the closed channel and panics; after
`signal.Stop` it would not. -/
theorem Serve_start_failure_leaves_closed_channel_registered :
    (Server.Serve { Address := "localhost:8088" } bindFailureRun).result =
      some (some "listen tcp 127.0.0.1:8088: bind: address already in use") ∧
    (Server.Serve { Address := "localhost:8088" } bindFailureRun).gracefulStop.closed = true ∧
    (Server.Serve { Address := "localhost:8088" } bindFailureRun).gracefulStop.registered =
      [.SIGTERM, .SIGINT] ∧
    (Server.Serve { Address := "localhost:8088" } bindFailureRun).gracefulStop.panicsOn .SIGINT =
      true ∧
    (Server.Serve { Address := "localhost:8088" } bindFailureRun).gracefulStop.panicsOn .SIGTERM =
      true ∧
    (Server.Serve { Address := "localhost:8088" } bindFailureRun).gracefulStop.Stop.panicsOn
      .SIGINT = false := by
  decide

/-- What `Serve` does when `Start` returns an error: it closes `gracefulStop`
and returns that same error at once; after the events of `Start` the only
event is the close, so it neither waits for a signal nor calls `Shutdown`. -/
theorem Serve_start_failure (s : Server) (env : ServeEnv) (err : String)
    (h : (s.Start env.start).1 = some err) :
    (s.Serve env).result = some (some err) ∧
    (s.Serve env).events =
      [.Notify .SIGTERM, .Notify .SIGINT] ++ (s.Start env.start).2 ++ [.closeStop] ∧
    (s.Serve env).gracefulStop.closed = true ∧
    (∀ sig, Event.receive sig ∉ (s.Serve env).events) ∧
    Event.Shutdown ∉ (s.Serve env).events := by
  have hrun : s.Serve env =
      { result := some (some err),
        events := [.Notify .SIGTERM, .Notify .SIGINT] ++ (s.Start env.start).2 ++ [.closeStop],
        gracefulStop :=
          (env.duringStart.foldl SignalChan.deliver
            (((SignalChan.make 1).Notify .SIGTERM).Notify .SIGINT)).close } := by
    unfold Server.Serve
    simp only [h]
  have hst := Start_events s env.start
  refine ⟨by rw [hrun], by rw [hrun], by rw [hrun]; rfl, ?_, ?_⟩
  · intro sig hmem
    rw [hrun] at hmem
    simp only [List.mem_append, List.mem_cons, List.mem_singleton, List.not_mem_nil,
      or_false] at hmem
    rcases hmem with (h1 | h1) | h1
    · rcases h1 with h1 | h1 <;> cases h1
    · exact (hst _ h1).2.2 sig rfl
    · cases h1
  · intro hmem
    rw [hrun] at hmem
    simp only [List.mem_append, List.mem_cons, List.mem_singleton, List.not_mem_nil,
      or_false] at hmem
    rcases hmem with (h1 | h1) | h1
    · rcases h1 with h1 | h1 <;> cases h1
    · exact (hst _ h1).1 rfl
    · cases h1

/-- C8: when `Start` succeeds, `Serve` calls `Shutdown` only after receiving a
termination signal that was sent to the process.  If SIGINT or SIGTERM is
sent, `Serve` returns, its value is the result of `Shutdown`, and `Shutdown`
is its last event and its only call; if neither is ever sent, `Serve` stays
blocked and `Shutdown` is not called. -/
theorem Serve_shutdown_after_signal (s : Server) (env : ServeEnv)
    (h : (s.Start env.start).1 = none) :
    ((∃ sig ∈ env.duringStart ++ env.afterStart, sig = Signal.SIGINT ∨ sig = Signal.SIGTERM) →
      (s.Serve env).result = some env.ShutdownResult ∧
      (s.Serve env).events.count .Shutdown = 1 ∧
      ∃ sig, (sig = Signal.SIGINT ∨ sig = Signal.SIGTERM) ∧
        sig ∈ env.duringStart ++ env.afterStart ∧
        (s.Serve env).events =
          [.Notify .SIGTERM, .Notify .SIGINT] ++ (s.Start env.start).2 ++
            [.Println "Please press Ctrl+C to stop service", .receive sig,
             .Println "Gracefully stopping service", .Shutdown]) ∧
    ((∀ sig ∈ env.duringStart ++ env.afterStart, sig ≠ Signal.SIGINT ∧ sig ≠ Signal.SIGTERM) →
      (s.Serve env).result = none ∧ Event.Shutdown ∉ (s.Serve env).events) := by
  have hst := Start_events s env.start
  have hcount : (s.Start env.start).2.count Event.Shutdown = 0 :=
    List.count_eq_zero.mpr fun hmem => (hst _ hmem).1 rfl
  constructor
  · intro hsig
    obtain ⟨sig, ch2, hrecv, hterm, hsent⟩ :=
      receive_of_termination _ env.duringStart env.afterStart gracefulStop_initial hsig
    have hrun : s.Serve env =
        { result := some env.ShutdownResult,
          events := [.Notify .SIGTERM, .Notify .SIGINT] ++ (s.Start env.start).2 ++
            [.Println "Please press Ctrl+C to stop service", .receive sig,
             .Println "Gracefully stopping service", .Shutdown],
          gracefulStop := ch2 } := by
      unfold Server.Serve
      simp only [h, hrecv, List.append_assoc, List.cons_append, List.nil_append]
    refine ⟨by rw [hrun], ?_, sig, hterm, hsent, by rw [hrun]⟩
    rw [hrun]
    simp [List.count_append, hcount, List.count_cons]
  · intro hnone
    have hrecv := receive_blocked _ env.duringStart env.afterStart gracefulStop_initial hnone
    have hrun : s.Serve env =
        { result := none,
          events := [.Notify .SIGTERM, .Notify .SIGINT] ++ (s.Start env.start).2 ++
            [.Println "Please press Ctrl+C to stop service"],
          gracefulStop := env.duringStart.foldl SignalChan.deliver
            (((SignalChan.make 1).Notify .SIGTERM).Notify .SIGINT) } := by
      unfold Server.Serve
      simp only [h, hrecv]
    refine ⟨by rw [hrun], ?_⟩
    intro hmem
    rw [hrun] at hmem
    simp only [List.mem_append, List.mem_cons, List.mem_singleton, List.not_mem_nil,
      or_false] at hmem
    rcases hmem with (h1 | h1) | h1
    · rcases h1 with h1 | h1 <;> cases h1
    · exact (hst _ h1).1 rfl
    · cases h1

/-- A run interrupted by SIGINT: `Serve` returns what `Shutdown` returned, after
one `Shutdown` call. -/
theorem Serve_shutdown_after_signal_witness :
    (Server.Start { Address := "localhost:8088" } interruptedRun.start).1 = none ∧
    (Server.Serve { Address := "localhost:8088" } interruptedRun).result = some none ∧
    (Server.Serve { Address := "localhost:8088" } interruptedRun).events.count .Shutdown = 1 :=
  ⟨rfl,
   ((Serve_shutdown_after_signal { Address := "localhost:8088" } interruptedRun rfl).1
      ⟨.SIGINT, by decide, Or.inl rfl⟩).1,
   ((Serve_shutdown_after_signal { Address := "localhost:8088" } interruptedRun rfl).1
      ⟨.SIGINT, by decide, Or.inl rfl⟩).2.1⟩

/-! ## The scanner's fuel

The fuel of the scanner only bounds its recursion: what `parse` supplies is
enough, so no text is rejected for lack of it. -/

theorem map_eq_ok {ε α β : Type} (f : α → β) (x : Except ε α) (b : β) :
    x.map f = .ok b ↔ ∃ a, x = .ok a ∧ f a = b := by
  cases x <;> simp [Except.map]

theorem skipSpace_length (cs : List Char) : (skipSpace cs).length ≤ cs.length := by
  induction cs with
  | nil => simp [skipSpace]
  | cons c cs ih =>
    unfold skipSpace
    split
    · exact Nat.le_succ_of_le ih
    · exact Nat.le_refl _

theorem spanDigits_length (cs : List Char) : (spanDigits cs).2.length ≤ cs.length := by
  induction cs with
  | nil => simp [spanDigits]
  | cons c cs ih =>
    unfold spanDigits
    split
    · exact Nat.le_succ_of_le ih
    · exact Nat.le_refl _

theorem scanString_length (fuel : Nat) : ∀ (cs s rest : List Char),
    scanString fuel cs = .ok (s, rest) → rest.length < cs.length := by
  induction fuel with
  | zero => intro cs s rest h; simp [scanString] at h
  | succ fuel ih =>
    intro cs s rest h
    cases cs with
    | nil => simp [scanString] at h
    | cons c cs =>
      unfold scanString at h
      split at h
      · simp only [Except.ok.injEq, Prod.mk.injEq] at h
        rw [← h.2]; simp
      · split at h
        · split at h
          · simp at h
          · split at h
            · simp at h
            · split at h
              · split at h
                · rw [map_eq_ok] at h
                  obtain ⟨p, hp, hq⟩ := h
                  have := ih _ _ _ (show scanString fuel _ = .ok (p.1, p.2) from hp)
                  simp only [Prod.mk.injEq] at hq
                  rw [← hq.2]
                  simp only [List.length_cons, List.length_drop] at this ⊢
                  omega
                · rw [map_eq_ok] at h
                  obtain ⟨p, hp, hq⟩ := h
                  have := ih _ _ _ (show scanString fuel _ = .ok (p.1, p.2) from hp)
                  simp only [Prod.mk.injEq] at hq
                  rw [← hq.2]
                  simp only [List.length_cons] at this ⊢
                  omega
              · rw [map_eq_ok] at h
                obtain ⟨p, hp, hq⟩ := h
                have := ih _ _ _ (show scanString fuel _ = .ok (p.1, p.2) from hp)
                simp only [Prod.mk.injEq] at hq
                rw [← hq.2]
                simp only [List.length_cons] at this ⊢
                omega
          · simp at h
          · split at h
            · rw [map_eq_ok] at h
              obtain ⟨p, hp, hq⟩ := h
              have := ih _ _ _ (show scanString fuel _ = .ok (p.1, p.2) from hp)
              simp only [Prod.mk.injEq] at hq
              rw [← hq.2]
              simp only [List.length_cons] at this ⊢
              omega
            · simp at h
        · split at h
          · simp at h
          · rw [map_eq_ok] at h
            obtain ⟨p, hp, hq⟩ := h
            have := ih _ _ _ (show scanString fuel _ = .ok (p.1, p.2) from hp)
            simp only [Prod.mk.injEq] at hq
            rw [← hq.2]
            simp only [List.length_cons] at this ⊢
            omega

theorem scanExponent_length (cs lit rest : List Char)
    (h : scanExponent cs = .ok (lit, rest)) : rest.length ≤ cs.length := by
  unfold scanExponent at h
  split at h
  · simp at h
  · rename_i c cs0
    split at h
    · split at h
      · simp at h
      · rename_i d cs1
        split at h
        · simp only [Except.ok.injEq, Prod.mk.injEq] at h
          have := spanDigits_length cs1
          rw [← h.2]
          simp only [List.length_cons]
          omega
        · simp at h
    · split at h
      · simp only [Except.ok.injEq, Prod.mk.injEq] at h
        have := spanDigits_length cs0
        rw [← h.2]
        simp only [List.length_cons]
        omega
      · simp at h

theorem scanFraction_length (cs lit rest : List Char)
    (h : scanFraction cs = .ok (lit, rest)) : rest.length ≤ cs.length := by
  unfold scanFraction at h
  split at h
  · rename_i cs0
    split at h
    · simp at h
    · rename_i d cs1
      split at h
      · have hs := spanDigits_length cs1
        generalize spanDigits cs1 = sp at h hs
        obtain ⟨ds, rest0⟩ := sp
        simp only at h hs
        cases rest0 with
        | nil =>
          simp only [Except.ok.injEq, Prod.mk.injEq] at h
          rw [← h.2]
          simp
        | cons e rest1 =>
          simp only at h
          split at h
          · rw [map_eq_ok] at h
            obtain ⟨p, hp, hq⟩ := h
            have := scanExponent_length _ _ _ (show scanExponent rest1 = .ok (p.1, p.2) from hp)
            simp only [Prod.mk.injEq] at hq
            rw [← hq.2]
            simp only [List.length_cons] at hs ⊢
            omega
          · simp only [Except.ok.injEq, Prod.mk.injEq] at h
            rw [← h.2]
            simp only [List.length_cons] at hs ⊢
            omega
      · simp at h
  · rename_i e cs0 _
    split at h
    · rw [map_eq_ok] at h
      obtain ⟨p, hp, hq⟩ := h
      have := scanExponent_length _ _ _ (show scanExponent cs0 = .ok (p.1, p.2) from hp)
      simp only [Prod.mk.injEq] at hq
      rw [← hq.2]
      simp only [List.length_cons]
      omega
    · simp only [Except.ok.injEq, Prod.mk.injEq] at h
      rw [← h.2]
  · simp only [Except.ok.injEq, Prod.mk.injEq] at h
    rw [← h.2]

theorem scanInteger_length (cs lit rest : List Char)
    (h : scanInteger cs = .ok (lit, rest)) : rest.length < cs.length := by
  unfold scanInteger at h
  split at h
  · simp at h
  · rename_i c cs0
    split at h
    · simp only [Except.ok.injEq, Prod.mk.injEq] at h
      rw [← h.2]
      simp
    · split at h
      · simp only [Except.ok.injEq, Prod.mk.injEq] at h
        have := spanDigits_length cs0
        rw [← h.2]
        simp only [List.length_cons]
        omega
      · simp at h

theorem scanUnsigned_length (cs lit rest : List Char)
    (h : scanUnsigned cs = .ok (lit, rest)) : rest.length < cs.length := by
  unfold scanUnsigned at h
  split at h
  · simp at h
  · rename_i int rest0 hint
    rw [map_eq_ok] at h
    obtain ⟨p, hp, hq⟩ := h
    have h1 := scanFraction_length _ _ _ (show scanFraction rest0 = .ok (p.1, p.2) from hp)
    have h2 := scanInteger_length _ _ _ hint
    simp only [Prod.mk.injEq] at hq
    rw [← hq.2]
    omega

theorem scanNumber_length (cs lit rest : List Char)
    (h : scanNumber cs = .ok (lit, rest)) : rest.length < cs.length := by
  unfold scanNumber at h
  split at h
  · rw [map_eq_ok] at h
    obtain ⟨p, hp, hq⟩ := h
    have := scanUnsigned_length _ _ _ (show scanUnsigned _ = .ok (p.1, p.2) from hp)
    simp only [Prod.mk.injEq] at hq
    rw [← hq.2]
    simp only [List.length_cons]
    omega
  · exact scanUnsigned_length _ _ _ h

theorem scanLiteral_length (name : String) (ls cs rest : List Char)
    (h : scanLiteral name ls cs = .ok rest) : rest.length ≤ cs.length := by
  induction ls generalizing cs with
  | nil =>
    simp only [scanLiteral, Except.ok.injEq] at h
    rw [h]
  | cons l ls ih =>
    cases cs with
    | nil => simp [scanLiteral] at h
    | cons c cs =>
      unfold scanLiteral at h
      split at h
      · have := ih cs h
        simp only [List.length_cons]
        omega
      · simp at h

theorem skipSpace_cons_length {cs rest : List Char} {c : Char} (h : skipSpace cs = c :: rest) :
    rest.length < cs.length := by
  have := skipSpace_length cs
  rw [h] at this
  simpa using this

theorem scan_length (fuel : Nat) : ∀ (depth : Nat) (cs : List Char),
    (∀ v rest, scanValue fuel depth cs = .ok (v, rest) → rest.length < cs.length) ∧
    (∀ vs rest, scanElems fuel depth cs = .ok (vs, rest) → rest.length < cs.length) ∧
    (∀ ms rest, scanMembers fuel depth cs = .ok (ms, rest) → rest.length < cs.length) := by
  induction fuel with
  | zero =>
    intro depth cs
    refine ⟨?_, ?_, ?_⟩ <;> intro a rest h
    · simp [scanValue] at h
    · simp [scanElems] at h
    · simp [scanMembers] at h
  | succ fuel ih =>
    intro depth cs
    refine ⟨?_, ?_, ?_⟩ <;> intro a rest h
    · rw [scanValue] at h
      split at h
      · simp at h
      · rename_i c rest0 hsk
        have hsk := skipSpace_cons_length hsk
        split at h
        · split at h
          · simp at h
          · split at h
            · simp at h
            · rename_i c1 rest1 hsk1
              have hsk1 := skipSpace_cons_length hsk1
              split at h
              · simp only [Except.ok.injEq, Prod.mk.injEq] at h
                rw [← h.2]
                omega
              · rw [map_eq_ok] at h
                obtain ⟨p, hp, hq⟩ := h
                have := (ih (depth + 1) (c1 :: rest1)).2.2 p.1 p.2 hp
                simp only [Prod.mk.injEq] at hq
                rw [← hq.2]
                simp only [List.length_cons] at this
                omega
        · split at h
          · split at h
            · simp at h
            · split at h
              · simp at h
              · rename_i c1 rest1 hsk1
                have hsk1 := skipSpace_cons_length hsk1
                split at h
                · simp only [Except.ok.injEq, Prod.mk.injEq] at h
                  rw [← h.2]
                  omega
                · rw [map_eq_ok] at h
                  obtain ⟨p, hp, hq⟩ := h
                  have := (ih (depth + 1) (c1 :: rest1)).2.1 p.1 p.2 hp
                  simp only [Prod.mk.injEq] at hq
                  rw [← hq.2]
                  simp only [List.length_cons] at this
                  omega
          · split at h
            · rw [map_eq_ok] at h
              obtain ⟨p, hp, hq⟩ := h
              have := scanString_length _ _ _ _ (show scanString _ _ = .ok (p.1, p.2) from hp)
              simp only [Prod.mk.injEq] at hq
              rw [← hq.2]
              omega
            · split at h
              · rw [map_eq_ok] at h
                obtain ⟨p, hp, hq⟩ := h
                have := scanNumber_length _ _ _ (show scanNumber _ = .ok (p.1, p.2) from hp)
                simp only [Prod.mk.injEq] at hq
                rw [← hq.2]
                simp only [List.length_cons] at this
                omega
              · split at h
                · rw [map_eq_ok] at h
                  obtain ⟨p, hp, hq⟩ := h
                  have := scanLiteral_length _ _ _ _ hp
                  simp only [Prod.mk.injEq] at hq
                  rw [← hq.2]
                  omega
                · split at h
                  · rw [map_eq_ok] at h
                    obtain ⟨p, hp, hq⟩ := h
                    have := scanLiteral_length _ _ _ _ hp
                    simp only [Prod.mk.injEq] at hq
                    rw [← hq.2]
                    omega
                  · split at h
                    · rw [map_eq_ok] at h
                      obtain ⟨p, hp, hq⟩ := h
                      have := scanLiteral_length _ _ _ _ hp
                      simp only [Prod.mk.injEq] at hq
                      rw [← hq.2]
                      omega
                    · simp at h
    · rw [scanElems] at h
      split at h
      · simp at h
      · rename_i v rest0 hv
        have hv := (ih depth cs).1 v rest0 hv
        split at h
        · simp at h
        · rename_i c rest1 hsk
          have hsk := skipSpace_cons_length hsk
          split at h
          · rw [map_eq_ok] at h
            obtain ⟨p, hp, hq⟩ := h
            have := (ih depth rest1).2.1 p.1 p.2 hp
            simp only [Prod.mk.injEq] at hq
            rw [← hq.2]
            omega
          · split at h
            · simp only [Except.ok.injEq, Prod.mk.injEq] at h
              rw [← h.2]
              omega
            · simp at h
    · unfold scanMembers at h
      split at h
      · simp at h
      · rename_i q afterQuote
        split at h
        · simp at h
        · split at h
          · simp at h
          · rename_i key rest0 hkey
            have hkey := scanString_length _ _ _ _ hkey
            split at h
            · simp at h
            · rename_i colon rest1 hsk
              have hsk := skipSpace_cons_length hsk
              split at h
              · simp at h
              · split at h
                · simp at h
                · rename_i v rest2 hv
                  have hv := (ih depth rest1).1 v rest2 hv
                  split at h
                  · simp at h
                  · rename_i c rest3 hsk3
                    have hsk3 := skipSpace_cons_length hsk3
                    split at h
                    · rw [map_eq_ok] at h
                      obtain ⟨p, hp, hq⟩ := h
                      have := (ih depth (skipSpace rest3)).2.2 p.1 p.2 hp
                      have hsk4 := skipSpace_length rest3
                      simp only [Prod.mk.injEq] at hq
                      rw [← hq.2]
                      simp only [List.length_cons]
                      omega
                    · split at h
                      · simp only [Except.ok.injEq, Prod.mk.injEq] at h
                        rw [← h.2]
                        simp only [List.length_cons]
                        omega
                      · simp at h

theorem scan_stable (fuel : Nat) : ∀ (depth : Nat) (cs : List Char),
    (2 * cs.length + 1 ≤ fuel → scanValue (fuel + 1) depth cs = scanValue fuel depth cs) ∧
    (2 * cs.length + 2 ≤ fuel → scanElems (fuel + 1) depth cs = scanElems fuel depth cs) ∧
    (2 * cs.length + 2 ≤ fuel → scanMembers (fuel + 1) depth cs = scanMembers fuel depth cs) := by
  induction fuel with
  | zero =>
    intro depth cs
    refine ⟨?_, ?_, ?_⟩ <;> intro h <;> omega
  | succ fuel ih =>
    intro depth cs
    refine ⟨?_, ?_, ?_⟩ <;> intro hf
    · rw [scanValue, scanValue]
      split
      · rfl
      · rename_i c rest0 hsk
        have hsk := skipSpace_cons_length hsk
        split
        · split
          · rfl
          · split
            · rfl
            · rename_i c1 rest1 hsk1
              have hsk1 := skipSpace_cons_length hsk1
              split
              · rfl
              · rw [(ih (depth + 1) (c1 :: rest1)).2.2 (by simp only [List.length_cons]; omega)]
        · split
          · split
            · rfl
            · split
              · rfl
              · rename_i c1 rest1 hsk1
                have hsk1 := skipSpace_cons_length hsk1
                split
                · rfl
                · rw [(ih (depth + 1) (c1 :: rest1)).2.1 (by simp only [List.length_cons]; omega)]
          · rfl
    · rw [scanElems, scanElems]
      rw [(ih depth cs).1 (by omega)]
      split
      · rfl
      · rename_i v rest0 hv
        have hv := (scan_length fuel depth cs).1 v rest0 hv
        split
        · rfl
        · rename_i c rest1 hsk
          have hsk := skipSpace_cons_length hsk
          split
          · rw [(ih depth rest1).2.1 (by omega)]
          · rfl
    · unfold scanMembers
      split
      · rfl
      · rename_i q afterQuote
        split
        · rfl
        · split
          · rfl
          · rename_i key rest0 hkey
            have hkey := scanString_length _ _ _ _ hkey
            split
            · rfl
            · rename_i colon rest1 hsk
              have hsk := skipSpace_cons_length hsk
              split
              · rfl
              · rw [(ih depth rest1).1 (by simp only [List.length_cons] at hf; omega)]
                split
                · rfl
                · rename_i v rest2 hv
                  have hv := (scan_length fuel depth rest1).1 v rest2 hv
                  split
                  · rfl
                  · rename_i c rest3 hsk3
                    have hsk3 := skipSpace_cons_length hsk3
                    have hsk4 := skipSpace_length rest3
                    split
                    · rw [(ih depth (skipSpace rest3)).2.2
                        (by simp only [List.length_cons] at hf; omega)]
                    · rfl

/-- More fuel than `parse` supplies never changes what the scanner returns. -/
theorem scanValue_fuel (depth : Nat) (cs : List Char) (extra : Nat) :
    scanValue (2 * cs.length + 1 + extra) depth cs = scanValue (2 * cs.length + 1) depth cs := by
  induction extra with
  | zero => rfl
  | succ n ih =>
    rw [← ih]
    exact (scan_stable (2 * cs.length + 1 + n) depth cs).1 (by omega)

/-- The fuel `scanValue` gives `scanString`, the number of characters left,
is enough: more fuel gives the same result. -/
theorem scanString_stable (fuel : Nat) : ∀ cs : List Char, cs.length ≤ fuel →
    scanString (fuel + 1) cs = scanString fuel cs := by
  induction fuel with
  | zero =>
    intro cs h
    have : cs = [] := List.length_eq_zero.mp (Nat.le_zero.mp h)
    subst this
    rfl
  | succ fuel ih =>
    intro cs h
    cases cs with
    | nil => rfl
    | cons c cs =>
      simp only [List.length_cons] at h
      unfold scanString
      split
      · rfl
      · split
        · split
          · rfl
          · rename_i h1 h2 h3 h4 cs1
            simp only [List.length_cons] at h
            split
            · rfl
            · split
              · split
                · rw [ih (cs1.drop 6) (by simp only [List.length_drop]; omega)]
                · rw [ih cs1 (by omega)]
              · rw [ih cs1 (by omega)]
          · rfl
          · rename_i e cs1 _ _
            simp only [List.length_cons] at h
            split
            · rw [ih cs1 (by omega)]
            · rfl
        · split
          · rfl
          · rw [ih cs (by omega)]

/-- The fuel `parse` supplies is enough: with any larger amount the scanner
returns the same result. -/
theorem parse_fuel (data : String) (extra : Nat) :
    scanValue (2 * data.length + 2 + extra) 0 data.toList =
      scanValue (2 * data.length + 2) 0 data.toList := by
  have hlen : data.length = data.toList.length := rfl
  rw [hlen]
  have h1 := scanValue_fuel 0 data.toList (1 + extra)
  have h2 := scanValue_fuel 0 data.toList 1
  rw [show 2 * data.toList.length + 2 + extra = 2 * data.toList.length + 1 + (1 + extra) by omega,
    h1, ← h2]

/-! ## Omitted fields -/

theorem decodeField_accepts (input : InputStruct) (f : Field) (v : Value)
    (h : accepts f v = true) : (decodeField input f v).2 = none := by
  cases f <;> cases v <;> simp_all [accepts, decodeField]
  rename_i lit
  cases hp : parseInt64 lit <;> simp_all

theorem decodeObject_wellTyped (members : List (String × Value)) (input : InputStruct)
    (h : wellTyped members) : (decodeObject members input none).2 = none := by
  induction members generalizing input with
  | nil => rfl
  | cons kv rest ih =>
    obtain ⟨key, v⟩ := kv
    have hrest : wellTyped rest := fun kv hkv f hf => h kv (List.mem_cons_of_mem _ hkv) f hf
    unfold decodeObject
    cases hf : fieldByName key with
    | none => exact ih input hrest
    | some f =>
      have hacc := h (key, v) (List.mem_cons_self _ _) f hf
      simp only [decodeField_accepts input f v hacc, Option.orElse]
      exact ih _ hrest

theorem decodeField_other (input : InputStruct) (f : Field) (v : Value) :
    (f ≠ .a → (decodeField input f v).1.A = input.A) ∧
    (f ≠ .b → (decodeField input f v).1.B = input.B) ∧
    (f ≠ .c → (decodeField input f v).1.C = input.C) := by
  cases f <;> cases v <;> simp [decodeField]
  split <;> simp

theorem decodeObject_omits (members : List (String × Value)) (input : InputStruct)
    (saved : Option String) :
    (omits members .a = true → (decodeObject members input saved).1.A = input.A) ∧
    (omits members .b = true → (decodeObject members input saved).1.B = input.B) ∧
    (omits members .c = true → (decodeObject members input saved).1.C = input.C) := by
  induction members generalizing input saved with
  | nil => simp [decodeObject]
  | cons kv rest ih =>
    obtain ⟨key, v⟩ := kv
    unfold decodeObject
    cases hf : fieldByName key with
    | none =>
      have := ih input saved
      simpa [omits, hf] using this
    | some f =>
      have hrec := ih (decodeField input f v).1 (saved.orElse fun _ => (decodeField input f v).2)
      have hfield := decodeField_other input f v
      simp only [omits, List.all_cons, hf, Bool.and_eq_true, decide_eq_true_eq, ne_eq,
        Option.some.injEq] at hrec ⊢
      refine ⟨fun h => ?_, fun h => ?_, fun h => ?_⟩
      · rw [hrec.1 h.2, hfield.1 h.1]
      · rw [hrec.2.1 h.2, hfield.2.1 h.1]
      · rw [hrec.2.2 h.2, hfield.2.2 h.1]

/-- Storing a zero value in a field that holds it changes nothing. -/
theorem decodeField_zero (input : InputStruct) (f : Field) (v : Value)
    (hv : isZeroOf f v = true)
    (hz : (f = .a → input.A = "") ∧ (f = .b → input.B = 0) ∧ (f = .c → input.C = false)) :
    decodeField input f v = (input, none) := by
  obtain ⟨a, b, c⟩ := input
  cases f <;> cases v <;> simp_all [isZeroOf, decodeField]

/-- Members that give the zero value to fields still holding it can be
dropped from an object without changing what it decodes to. -/
theorem decodeObject_addsZeros (om : Field → Bool) (explicit : List (String × Value)) :
    ∀ (input : InputStruct) (saved : Option String),
    ((om .a = true → input.A = "") ∧ (om .b = true → input.B = 0) ∧
      (om .c = true → input.C = false)) →
    (∀ kv ∈ explicit, ∀ f, fieldByName kv.1 = some f → om f = true → isZeroOf f kv.2 = true) →
    decodeObject explicit input saved =
      decodeObject
        (explicit.filter fun kv =>
          !(match fieldByName kv.1 with
            | some f => om f && isZeroOf f kv.2
            | none => false))
        input saved := by
  induction explicit with
  | nil => intro input saved _ _; rfl
  | cons kv rest ih =>
    intro input saved hz hall
    obtain ⟨key, v⟩ := kv
    have hrest : ∀ kv ∈ rest, ∀ f, fieldByName kv.1 = some f → om f = true →
        isZeroOf f kv.2 = true := fun kv hkv => hall kv (List.mem_cons_of_mem _ hkv)
    cases hf : fieldByName key with
    | none =>
      simp only [List.filter_cons, hf, Bool.not_false, if_true, decodeObject]
      exact ih input saved hz hrest
    | some f =>
      cases hom : om f with
      | true =>
        have hv := hall (key, v) (List.mem_cons_self _ _) f hf hom
        simp only at hv
        have hstep := decodeField_zero input f v hv
          ⟨fun h => hz.1 (h ▸ hom), fun h => hz.2.1 (h ▸ hom), fun h => hz.2.2 (h ▸ hom)⟩
        simp only [List.filter_cons, hf, hom, hv, Bool.and_self, Bool.not_true, decodeObject,
          hstep]
        have hsaved : (saved.orElse fun _ => (none : Option String)) = saved := by
          cases saved <;> rfl
        simp only [Bool.false_eq_true, if_false, hsaved]
        exact ih input saved hz hrest
      | false =>
        have hother := decodeField_other input f v
        simp only [List.filter_cons, hf, hom, Bool.false_and, Bool.not_false, if_true,
          decodeObject]
        apply ih
        · refine ⟨fun h => ?_, fun h => ?_, fun h => ?_⟩
          · rw [hother.1 (by rintro rfl; simp [hom] at h)]; exact hz.1 h
          · rw [hother.2.1 (by rintro rfl; simp [hom] at h)]; exact hz.2.1 h
          · rw [hother.2.2 (by rintro rfl; simp [hom] at h)]; exact hz.2.2 h
        · exact hrest

/-- Spelling out zero values of omitted fields gives the same record. -/
theorem decodeObject_of_addsZeros (members explicit : List (String × Value))
    (h : addsZeros members explicit) :
    decodeObject explicit zeroInput none = decodeObject members zeroInput none := by
  have hall : ∀ kv ∈ explicit, ∀ f, fieldByName kv.1 = some f → omits members f = true →
      isZeroOf f kv.2 = true := by
    intro kv hkv f hf hom
    by_contra hz
    have hkeep : (!spellsZero members kv) = true := by
      simp [spellsZero, hf, hom, hz]
    have hmem : kv ∈ members := by
      rw [← h]
      exact List.mem_filter.mpr ⟨hkv, hkeep⟩
    unfold omits at hom
    have := List.all_eq_true.mp hom kv hmem
    simp [hf] at this
  have := decodeObject_addsZeros (omits members) explicit zeroInput none
    ⟨fun _ => rfl, fun _ => rfl, fun _ => rfl⟩ hall
  rw [this]
  have hfilter : (explicit.filter fun kv =>
      !(match fieldByName kv.1 with
        | some f => omits members f && isZeroOf f kv.2
        | none => false)) = members := h
  rw [hfilter]

/-- Decoding a well-typed object succeeds with the record its members give. -/
theorem Unmarshal_wellTyped (body : String) (members : List (String × Value))
    (hp : parse body = .ok (.object members)) (ht : wellTyped members) :
    Unmarshal body = .ok (decodeObject members zeroInput none).1 := by
  have h2 := decodeObject_wellTyped members zeroInput ht
  unfold Unmarshal
  rw [hp]
  simp only [decodeValue]
  generalize decodeObject members zeroInput none = res at h2
  obtain ⟨input, err⟩ := res
  simp only at h2
  subst h2
  rfl

/-- Arrays opened beyond the nesting limit are a syntax error, whatever
follows them. -/
theorem scanValue_too_deep : ∀ (k depth fuel : Nat) (tail : List Char),
    depth + k = maxNestingDepth → 2 * k + 1 ≤ fuel →
    scanValue fuel depth (List.replicate (k + 1) '[' ++ tail) =
      .error (invalidChar '[' "exceeded max depth") := by
  intro k
  induction k with
  | zero =>
    intro depth fuel tail hd hf
    obtain ⟨f, rfl⟩ : ∃ f, fuel = f + 1 := ⟨fuel - 1, by omega⟩
    have hle : maxNestingDepth ≤ depth := by omega
    rw [scanValue]
    simp [List.replicate, skipSpace, isSpace, hle]
  | succ k ih =>
    intro depth fuel tail hd hf
    obtain ⟨f, rfl⟩ : ∃ f, fuel = f + 2 := ⟨fuel - 2, by omega⟩
    have hlt : ¬ maxNestingDepth ≤ depth := by omega
    have hrec := ih (depth + 1) f tail (by omega) (by omega)
    rw [scanValue]
    rw [List.replicate_succ]
    simp only [List.cons_append, skipSpace, isSpace]
    simp [hlt, List.replicate_succ, skipSpace, isSpace] 
    rw [scanElems]
    rw [← List.cons_append, ← List.replicate_succ, hrec]
    rfl

/-- An object whose member holds 10000 arrays inside one another is a syntax
error. -/
theorem scanValue_deep_member (fuel : Nat) (tail : List Char) (hf : 20002 ≤ fuel) :
    scanValue fuel 0 (['\x7b', '"', 'x', '"', ':'] ++ (List.replicate 10000 '[' ++ tail)) =
      .error (invalidChar '[' "exceeded max depth") := by
  obtain ⟨f, rfl⟩ : ∃ f, fuel = f + 3 := ⟨fuel - 3, by omega⟩
  have hrec := scanValue_too_deep 9999 1 (f + 1) tail (by decide) (by omega)
  generalize hdeep : List.replicate (9999 + 1) '[' ++ tail = deep at hrec
  rw [scanValue]
  simp only [List.cons_append, List.nil_append, skipSpace, isSpace]
  simp [maxNestingDepth]
  unfold scanMembers
  simp [scanString, skipSpace, isSpace]
  simp [Except.map, skipSpace, isSpace, hrec]


theorem deepChars_length : deepChars.length = 20006 := by
  unfold deepChars
  simp only [List.length_append, List.length_replicate, List.length_cons, List.length_nil]

theorem deepBody_length : deepBody.length = deepChars.length := String.length_mk deepChars

theorem deepBody_toList : deepBody.toList = deepChars := rfl

theorem deepChars_eq (tail : List Char) (h : tail = List.replicate 10000 ']' ++ ['\x7d']) :
    deepChars = ['\x7b', '"', 'x', '"', ':'] ++ (List.replicate 10000 '[' ++ tail) := by
  subst h
  rfl

theorem scan_deepChars :
    scanValue (2 * deepChars.length + 2) 0 deepChars =
      .error (invalidChar '[' "exceeded max depth") := by
  have hscan := scanValue_deep_member (2 * deepChars.length + 2)
    (List.replicate 10000 ']' ++ ['\x7d']) (by rw [deepChars_length]; decide)
  rw [← deepChars_eq _ rfl] at hscan
  exact hscan

theorem parse_of_scan_error (data err : String)
    (h : scanValue (2 * data.length + 2) 0 data.toList = .error err) :
    parse data = .error err := by
  unfold parse
  rw [h]

theorem scan_deepBody :
    scanValue (2 * deepBody.length + 2) 0 deepBody.toList =
      .error (invalidChar '[' "exceeded max depth") := by
  rw [deepBody_toList, deepBody_length]
  exact scan_deepChars

/-- The decoder's syntax check rejects `deepBody`. -/
theorem parse_deepBody : parse deepBody = .error (invalidChar '[' "exceeded max depth") :=
  parse_of_scan_error deepBody _ scan_deepBody

/-- A body that fails to decode is answered 400. -/
theorem handler_decode_failure (env : Env) (data err : String)
    (h : env.Unmarshal data = .error err) :
    (handler env newResponseWriter { Method := MethodPost, Body := .ok data }).w.status =
      some 400 := by
  unfold handler
  simp only [h, if_true]
  rfl

theorem Unmarshal_of_parse_error (data err : String) (h : parse data = .error err) :
    Unmarshal data = .error err := by
  unfold Unmarshal
  rw [h]

/-- A body with a syntax error is answered 400. -/
theorem handler_syntax_error (data err : String) (h : parse data = .error err) :
    (handler goEnv newResponseWriter { Method := MethodPost, Body := .ok data }).w.status =
      some 400 :=
  handler_decode_failure goEnv data err (Unmarshal_of_parse_error data err h)


/-- C6 as stated fails: the body `{"b":"x"}` is a JSON object that omits `a`
and `c`, and the handler rejects it with 400 because its `b` is not a number;
and the object `{"x":[[...]]}` with 10000 nested arrays, which omits all three
fields, is rejected with 400 because it exceeds the decoder's nesting limit. -/
theorem handler_rejects_object_omitting_fields :
    parse "\x7b\"b\":\"x\"\x7d" = .ok (.object [("b", .string "x")]) ∧
    omits [("b", .string "x")] .a = true ∧
    omits [("b", .string "x")] .c = true ∧
    (handler goEnv newResponseWriter
      { Method := "POST", Body := .ok "\x7b\"b\":\"x\"\x7d" }).w.status = some 400 ∧
    (handler goEnv newResponseWriter
      { Method := MethodPost, Body := .ok deepBody }).w.status = some 400 :=
  ⟨rfl, rfl, rfl, rfl, handler_syntax_error deepBody _ parse_deepBody⟩

/-- C6, amended: a POST request whose body passes the decoder's syntax check
as a JSON object, and in which every member decoded into `a`, `b` or `c` holds
`null` or a value of the field's type, is answered 200, whatever fields it
omits and whatever other members it has.  The body is the encoding of the
record the handler converted, in which every field fed by an omitted input
field is zero, and the response is the one given to every object that differs
only by added members giving omitted fields their zero value. -/
theorem handler_omitted_fields (body other : String) (members explicit : List (String × Value))
    (hp : parse body = .ok (.object members)) (ht : wellTyped members)
    (hq : parse other = .ok (.object explicit)) (hz : addsZeros members explicit) :
    (handler goEnv newResponseWriter { Method := MethodPost, Body := .ok body }).w.status =
      some 200 ∧
    (∃ output : OutputStruct,
      Call.Marshal output ∈
        (handler goEnv newResponseWriter { Method := MethodPost, Body := .ok body }).calls ∧
      Marshal output = .ok
        (handler goEnv newResponseWriter { Method := MethodPost, Body := .ok body }).w.body ∧
      (omits members .a = true → output.D = "") ∧
      (omits members .b = true → output.F = 0) ∧
      (omits members .c = true → output.E = false)) ∧
    (handler goEnv newResponseWriter { Method := MethodPost, Body := .ok other }).w =
      (handler goEnv newResponseWriter { Method := MethodPost, Body := .ok body }).w := by
  have hu := Unmarshal_wellTyped body members hp ht
  have hom := decodeObject_omits members zeroInput none
  have hd := decodeObject_of_addsZeros members explicit hz
  have hex : Unmarshal other = .ok (decodeObject members zeroInput none).1 := by
    unfold Unmarshal at hu ⊢
    rw [hp] at hu
    rw [hq]
    simp only [decodeValue] at hu ⊢
    rw [hd]
    exact hu
  generalize decodeObject members zeroInput none = res at hu hom hex
  obtain ⟨input, saved⟩ := res
  simp only at hu hom hex
  have hresp := handler_ok_response goEnv { Method := MethodPost, Body := .ok body } body input
    _ rfl rfl hu rfl
  have hcall := handler_ok_calls goEnv { Method := MethodPost, Body := .ok body } body input
    _ rfl rfl hu rfl
  have hresp2 := handler_ok_response goEnv { Method := MethodPost, Body := .ok other }
    other input _ rfl rfl hex rfl
  refine ⟨by rw [hresp], ⟨{ D := input.A, E := input.C, F := input.B }, hcall,
    by rw [hresp]; rfl, ?_, ?_, ?_⟩, by rw [hresp, hresp2]⟩
  · intro h; exact hom.1 h
  · intro h; exact hom.2.1 h
  · intro h; exact hom.2.2 h

/-- The body `{"b":7,"extra":[1,2]}` omits `a` and `c` and has an unknown member:
it is answered 200 with `d` and `e` zero, like
`{"C":false,"b":7,"extra":[1,2],"a":""}`, which spells the zero values out. -/
theorem handler_omitted_fields_witness :
    (handler goEnv newResponseWriter
      { Method := MethodPost, Body := .ok "\x7b\"b\":7,\"extra\":[1,2]\x7d" }).w.status = some 200 ∧
    (handler goEnv newResponseWriter
      { Method := MethodPost, Body := .ok "\x7b\"b\":7,\"extra\":[1,2]\x7d" }).w.body =
        "\x7b\"d\":\"\",\"e\":false,\"f\":7\x7d" ∧
    (handler goEnv newResponseWriter
      { Method := MethodPost,
        Body := .ok "\x7b\"C\":false,\"b\":7,\"extra\":[1,2],\"a\":\"\"\x7d" }).w =
      (handler goEnv newResponseWriter
        { Method := MethodPost, Body := .ok "\x7b\"b\":7,\"extra\":[1,2]\x7d" }).w :=
  have h := handler_omitted_fields "\x7b\"b\":7,\"extra\":[1,2]\x7d"
    "\x7b\"C\":false,\"b\":7,\"extra\":[1,2],\"a\":\"\"\x7d"
    [("b", .number "7"), ("extra", .array [.number "1", .number "2"])]
    [("C", .bool false), ("b", .number "7"), ("extra", .array [.number "1", .number "2"]),
     ("a", .string "")]
    rfl
    (by
      intro kv hkv f hf
      simp only [List.mem_cons, List.mem_singleton, List.not_mem_nil, or_false] at hkv
      rcases hkv with rfl | rfl
      · cases f <;> first | rfl | (exact absurd hf (by decide))
      · cases (show (none : Option Field) = some f from hf))
    rfl rfl
  ⟨h.1, rfl, h.2.2⟩

end Converter
